import Mathlib

/-!
Verification of the route-trie and method-router of the simple-server
repository (src/routing/routeTrie.ts).  The TypeScript code is shallowly
embedded: strings are lists of characters, the mutable trie becomes a pure
tree that every operation rebuilds, a thrown `Error` becomes an explicit
error value, and `undefined`-able fields become `Option`.  The in-place
mutation discipline of `RouteTrie.insert` is preserved: the embedded insert
returns the (possibly partially updated) trie together with an optional
error, exactly mirroring which nodes the TypeScript code has already
attached when it throws.
-/

/-- Strings are modelled as lists of characters. -/
abbrev Str := List Char

/-- A JavaScript object used as a string-keyed dictionary (the `params`
object built by `RouteTrie.find`), modelled as an insertion-ordered
association list. -/
abbrev Params := List (Str × Str)

/-- The errors thrown by `Router` / `RouteTrie`, carrying the data that the
TypeScript error messages interpolate: the unsupported method string, or the
(slash-normalized) offending path and, for a dynamic-segment conflict, the
capture name already bound at that node. -/
inductive Err where
  | unsupportedMethod (method : Str)
  | conflictingDynamicSegment (path : Str) (existing : Str)
  | duplicateRoute (path : Str)
deriving DecidableEq

/-- The kind of an error, forgetting the interpolated data. -/
inductive ErrTag where
  | unsupported
  | conflict
  | dup
deriving DecidableEq

/-- Maps an error to its kind. -/
def errTag : Err → ErrTag
  | .unsupportedMethod _ => .unsupported
  | .conflictingDynamicSegment _ _ => .conflict
  | .duplicateRoute _ => .dup

/-- `RouteTrieNode<T>`: the segment this node represents, the literal
children (a `Map<string, RouteTrieNode>` modelled as an insertion-ordered
association list), the optional dynamic child, and the optional bound
value.  The `parent` back-reference of the TypeScript class is used only by
the `fullPath` diagnostic getter, which no modelled operation reads, so it
is not represented. -/
inductive Node (T : Type) where
  | mk (path : Str) (children : List (Str × Node T)) (dynamicSegment : Option (Node T)) (value : Option T)

/-- The `path` field of a node. -/
def Node.path {T : Type} : Node T → Str
  | .mk p _ _ _ => p

/-- The `children` map of a node. -/
def Node.children {T : Type} : Node T → List (Str × Node T)
  | .mk _ c _ _ => c

/-- The `dynamicSegment` field of a node. -/
def Node.dynamicSegment {T : Type} : Node T → Option (Node T)
  | .mk _ _ d _ => d

/-- The `value` field of a node. -/
def Node.value {T : Type} : Node T → Option T
  | .mk _ _ _ v => v

/-- Replaces the `dynamicSegment` field. -/
def Node.withDyn {T : Type} : Node T → Option (Node T) → Node T
  | .mk p c _ v, d => .mk p c d v

/-- Replaces the `children` field. -/
def Node.withChildren {T : Type} : Node T → List (Str × Node T) → Node T
  | .mk p _ d v, c => .mk p c d v

/-- Replaces the `value` field. -/
def Node.withValue {T : Type} : Node T → Option T → Node T
  | .mk p c d _, v => .mk p c d v

/-- `new RouteTrieNode(path, parent)`: fresh node with no children, no
dynamic child and no value. -/
def emptyNode {T : Type} (s : Str) : Node T := .mk s [] none none

/-- `Map.get`: first (and only) entry with the given key. -/
def lookupA {T : Type} : List (Str × Node T) → Str → Option (Node T)
  | [], _ => none
  | (k, v) :: rest, key => if k = key then some v else lookupA rest key

/-- `Map.set`: replace the entry in place if the key is present, otherwise
append a new entry (JavaScript `Map` preserves insertion order). -/
def setA {T : Type} : List (Str × Node T) → Str → Node T → List (Str × Node T)
  | [], key, v => [(key, v)]
  | (k, w) :: rest, key, v => if k = key then (key, v) :: rest else (k, w) :: setA rest key v

/-- `isDynamicPart`: the segment starts with a colon or is exactly the
one-character string `*`. -/
def isDyn (part : Str) : Bool :=
  part.head? = some ':' || part = ['*']

/-- `part.replace(':', '')`: JavaScript `String.replace` with a string
pattern removes only the first occurrence. -/
def stripColon : Str → Str
  | [] => []
  | c :: cs => if c = ':' then cs else c :: stripColon cs

/-- `params[key] = value` on a JavaScript object: overwrite in place if the
key is present (keeping its position), otherwise append. -/
def assignP (q : Params) (key v : Str) : Params :=
  if q.any (fun kv => kv.1 = key) then
    q.map (fun kv => if kv.1 = key then (key, v) else kv)
  else q ++ [(key, v)]

/-- One step of `path.split('/')`, accumulating the current chunk in
reverse. -/
def splitAux : Str → Str → List Str
  | [], acc => [acc.reverse]
  | c :: rest, acc => if c = '/' then acc.reverse :: splitAux rest [] else splitAux rest (c :: acc)

/-- `path.split('/').filter(part => part)`: split on slashes and drop the
empty chunks (empty strings are falsy). -/
def segsOf (p : Str) : List Str :=
  (splitAux p []).filter (fun s => s ≠ [])

/-- The leading-slash normalization at the top of `RouteTrie.insert`: an
empty path or one not starting with `/` gets a slash prepended. -/
def normIns (p : Str) : Str :=
  if p.head? = some '/' then p else '/' :: p

/-- The loop body of `RouteTrie.insert`, walking the already-split segment
list.  Returns the updated trie and an optional error; on error the
returned trie reflects exactly the nodes attached before the throw (which,
as proved below, is none: the throws happen before any mutation).  The
`path` argument is the slash-normalized path interpolated into the error
messages. -/
def insertPartsM {T : Type} (node : Node T) (parts : List Str) (v : Option T) (path : Str) :
    Node T × Option Err :=
  match parts with
  | [] =>
      if node.value.isSome then (node, some (.duplicateRoute path))
      else (node.withValue v, none)
  | part :: rest =>
      if isDyn part then
        let name := stripColon part
        match node.dynamicSegment with
        | some d =>
            if d.path ≠ name then (node, some (.conflictingDynamicSegment path d.path))
            else
              let r := insertPartsM d rest v path
              (node.withDyn (some r.1), r.2)
        | none =>
            let r := insertPartsM (emptyNode name) rest v path
            (node.withDyn (some r.1), r.2)
      else
        match lookupA node.children part with
        | some c =>
            let r := insertPartsM c rest v path
            (node.withChildren (setA node.children part r.1), r.2)
        | none =>
            let r := insertPartsM (emptyNode part) rest v path
            (node.withChildren (setA node.children part r.1), r.2)

/-- `RouteTrie.insert(path, value)`: normalize the leading slash, split into
non-empty segments, and walk from the root. -/
def trieInsert {T : Type} (t : Node T) (p : Str) (v : Option T) : Node T × Option Err :=
  insertPartsM t (segsOf (normIns p)) v (normIns p)

/-- The loop body of `RouteTrie.find`: literal child first, then the dynamic
child (recording the capture), otherwise fail with no backtracking. -/
def findParts {T : Type} (node : Node T) (parts : List Str) (q : Params) :
    Option (Node T × Params) :=
  match parts with
  | [] => some (node, q)
  | part :: rest =>
      match lookupA node.children part with
      | some c => findParts c rest q
      | none =>
          match node.dynamicSegment with
          | some d => findParts d rest (assignP q d.path part)
          | none => none

/-- `RouteTrie.find(path)`: the empty path and `/` resolve to the root with
the `params` field left absent; any other path gets a leading slash if
missing, is split into non-empty segments, and is walked from the root,
returning the reached node and the accumulated `params` object. -/
def trieFind {T : Type} (t : Node T) (p : Str) : Option (Node T × Option Params) :=
  if p = [] ∨ p = ['/'] then some (t, none)
  else
    let p2 := if p.head? = some '/' then p else '/' :: p
    (findParts t (segsOf p2) []).map (fun r => (r.1, some r.2))

/-- The `HttpMethod` string enum. -/
inductive HttpMethod where
  | GET | PUT | POST | DELETE | HEAD | PATCH | OPTIONS | TRACE | CONNECT
deriving DecidableEq

/-- The nine enumerated method strings (the keys of `routeMethodMap`). -/
def methodStrs : List Str :=
  ["GET".data, "PUT".data, "POST".data, "DELETE".data, "HEAD".data,
   "PATCH".data, "OPTIONS".data, "TRACE".data, "CONNECT".data]

/-- `routeMethodMap.get(str)`: succeeds exactly on the nine enumerated
method names. -/
def parseMethod (s : Str) : Option HttpMethod :=
  if s = "GET".data then some .GET
  else if s = "PUT".data then some .PUT
  else if s = "POST".data then some .POST
  else if s = "DELETE".data then some .DELETE
  else if s = "HEAD".data then some .HEAD
  else if s = "PATCH".data then some .PATCH
  else if s = "OPTIONS".data then some .OPTIONS
  else if s = "TRACE".data then some .TRACE
  else if s = "CONNECT".data then some .CONNECT
  else none

/-- ASCII uppercasing of one character, the fragment of JavaScript
`String.prototype.toUpperCase` exercised by method strings. -/
def upChar (c : Char) : Char :=
  if 'a' ≤ c ∧ c ≤ 'z' then Char.ofNat (c.toNat - 32) else c

/-- `method.toUpperCase()` (ASCII fragment). -/
def upperStr (s : Str) : Str := s.map upChar

/-- The result of a successful `Router.find`: the bound handler and the
`pathParams` field, which is absent when the trie returned no `params`
object (the root special case). -/
structure RFind (T : Type) where
  handler : T
  pathParams : Option Params
deriving DecidableEq

/-- `Router<T>`: one trie per enumerated HTTP method, all present from
construction. -/
structure Router (T : Type) where
  tries : HttpMethod → Node T

/-- `new Router()`: every method maps to a fresh empty trie whose root is
`new RouteTrieNode('', null)`. -/
def newRouter {T : Type} : Router T := ⟨fun _ => emptyNode []⟩

/-- `Router.map(method, path, handler)`: uppercase the method and look up
its trie (failing with `UnsupportedMethod` on a miss), then delegate to the
trie insert.  The updated (on a thrown insert: partially updated) trie
stays bound to the method, mirroring in-place mutation. -/
def routerMap {T : Type} (r : Router T) (m p : Str) (h : T) : Router T × Option Err :=
  match parseMethod (upperStr m) with
  | none => (r, some (.unsupportedMethod m))
  | some M =>
      let res := trieInsert (r.tries M) p (some h)
      (⟨fun M2 => if M2 = M then res.1 else r.tries M2⟩, res.2)

/-- `Router.find(method, path)`: uppercase the method and look up its trie
(failing with `UnsupportedMethod` on a miss), delegate to the trie find,
and return `null` (here `Except.ok none`) when no node is reached or the
reached node holds no value. -/
def routerFind {T : Type} (r : Router T) (m p : Str) : Except Err (Option (RFind T)) :=
  match parseMethod (upperStr m) with
  | none => .error (.unsupportedMethod m)
  | some M =>
      match trieFind (r.tries M) p with
      | none => .ok none
      | some res =>
          match res.1.value with
          | none => .ok none
          | some h => .ok (some ⟨h, res.2⟩)

/-- The router after a registration, discarding the error slot (used to
build the concrete routers of the examples, whose registrations are proved
error-free). -/
def mapOk {T : Type} (r : Router T) (m p : Str) (h : T) : Router T :=
  (routerMap r m p h).1

/-- The walk relation of the trie: `Reaches t parts v` says that descending
from `t` along `parts` — literal segments through `children`, dynamic
segments through a `dynamicSegment` whose capture name matches — ends at a
node whose `value` field is `v`. -/
def Reaches {T : Type} : Node T → List Str → Option T → Prop
  | t, [], v => t.value = v
  | t, part :: rest, v =>
      cond (isDyn part)
        (∃ d, t.dynamicSegment = some d ∧ d.path = stripColon part ∧ Reaches d rest v)
        (∃ c, lookupA t.children part = some c ∧ Reaches c rest v)

/-- The linear chain of nodes that inserting `parts` into a fresh node
produces: dynamic segments become `dynamicSegment` links named by
`stripColon`, literal segments become single literal children, and the
value sits at the end. -/
def mkChain {T : Type} (s : Str) : List Str → Option T → Node T
  | [], v => .mk s [] none v
  | part :: rest, v =>
      if isDyn part then .mk s [] (some (mkChain (stripColon part) rest v)) none
      else .mk s [(part, mkChain part rest v)] none none

/-- Follows the spec sentence "returns the bound handler together with the
captured path-parameter mapping": matches a registered route's segment list
against a request's segment list, literal segments by equality and dynamic
segments by recording `captures[captureName] = requestSegment`; succeeds
only when both lists are exhausted together. -/
def specMatchCaptures : List Str → List Str → Params → Option Params
  | [], [], q => some q
  | rs :: rss, ps :: pss, q =>
      if isDyn rs then specMatchCaptures rss pss (assignP q (stripColon rs) ps)
      else if rs = ps then specMatchCaptures rss pss q else none
  | _, _, _ => none

instance {ε α : Type} [DecidableEq ε] [DecidableEq α] : DecidableEq (Except ε α) :=
  fun x y =>
    match x, y with
    | .ok a, .ok b =>
        if h : a = b then .isTrue (by rw [h])
        else .isFalse (fun hc => h (Except.ok.inj hc))
    | .error a, .error b =>
        if h : a = b then .isTrue (by rw [h])
        else .isFalse (fun hc => h (Except.error.inj hc))
    | .ok _, .error _ => .isFalse (fun hc => Except.noConfusion hc)
    | .error _, .ok _ => .isFalse (fun hc => Except.noConfusion hc)

/-! ### Concrete example routers and tries (used by the example conjuncts,
counterexamples and witnesses) -/

/-- A router with only `GET /users/*` registered. -/
def rWild : Router Nat := mapOk newRouter "GET".data "/users/*".data 7

/-- A router with only `GET /` registered (root route). -/
def rRootEx : Router Nat := mapOk newRouter "GET".data "/".data 9

/-- A second root-route router, for the slash-normalization counterexample. -/
def rSlash : Router Nat := mapOk newRouter "GET".data "/".data 3

/-- A router with `GET /posts/:post_id` and the literal `GET /posts/top`. -/
def rPrec : Router Nat :=
  mapOk (mapOk newRouter "GET".data "/posts/:post_id".data 1) "GET".data "/posts/top".data 2

/-- A router with `GET /posts/:id/x` and the literal `GET /posts/top`: on
`/posts/top/x` the literal branch is entered and dies, although the dynamic
branch would have matched. -/
def rNoBack : Router Nat :=
  mapOk (mapOk newRouter "GET".data "/posts/:id/x".data 1) "GET".data "/posts/top".data 2

/-- A trie with `/a/:x` registered, used to exercise a failing insertion. -/
def tConflict : Node Nat := (trieInsert (emptyNode []) "/a/:x".data (some 1)).1

/-! ### Segment-splitting lemmas -/

theorem segs_slash (p : Str) : segsOf ('/' :: p) = segsOf p := by
  simp [segsOf, splitAux]

theorem segs_normIns (p : Str) : segsOf (normIns p) = segsOf p := by
  unfold normIns
  split
  · rfl
  · exact segs_slash p

/-! ### Association-list lemmas -/

theorem lookupA_setA_self {T : Type} (l : List (Str × Node T)) (k : Str) (v : Node T) :
    lookupA (setA l k v) k = some v := by
  induction l with
  | nil => simp [setA, lookupA]
  | cons kv rest ih =>
      by_cases h : kv.1 = k
      · simp [setA, h, lookupA]
      · simp [setA, h, lookupA, ih]

theorem setA_lookupA_eq {T : Type} (l : List (Str × Node T)) (k : Str) (v : Node T)
    (h : lookupA l k = some v) : setA l k v = l := by
  induction l with
  | nil => simp [lookupA] at h
  | cons kv rest ih =>
      by_cases hk : kv.1 = k
      · simp [lookupA, hk] at h
        cases kv with
        | mk k1 v1 =>
            simp at hk
            subst hk
            simp at h
            simp [setA, h]
      · cases kv with
        | mk k1 v1 =>
            simp at hk
            simp [lookupA, hk] at h
            simp [setA, hk, ih h]

/-! ### Node field lemmas -/

theorem withDyn_self {T : Type} (t : Node T) : t.withDyn t.dynamicSegment = t := by
  cases t; rfl

theorem withChildren_self {T : Type} (t : Node T) : t.withChildren t.children = t := by
  cases t; rfl

theorem path_withDyn {T : Type} (t : Node T) (d : Option (Node T)) :
    (t.withDyn d).path = t.path := by
  cases t; rfl

theorem path_withChildren {T : Type} (t : Node T) (c : List (Str × Node T)) :
    (t.withChildren c).path = t.path := by
  cases t; rfl

theorem path_withValue {T : Type} (t : Node T) (v : Option T) :
    (t.withValue v).path = t.path := by
  cases t; rfl

theorem insert_path {T : Type} (parts : List Str) (n : Node T) (v : Option T) (path : Str) :
    ((insertPartsM n parts v path).1).path = n.path := by
  cases parts with
  | nil =>
      by_cases h : n.value.isSome <;> simp [insertPartsM, h, path_withValue]
  | cons part rest =>
      cases hdyn : isDyn part with
      | false =>
          simp only [insertPartsM, hdyn, Bool.false_eq_true, if_false]
          cases hl : lookupA n.children part <;> simp [path_withChildren]
      | true =>
          simp only [insertPartsM, hdyn, if_true]
          cases hd : n.dynamicSegment with
          | none => simp [path_withDyn]
          | some d =>
              by_cases hne : d.path ≠ stripColon part
              · simp [hne]
              · simp [hne, path_withDyn]

/-! ### Insertion lemmas -/

theorem insert_fresh {T : Type} (parts : List Str) (s : Str) (v : Option T) (path : Str) :
    insertPartsM (emptyNode s) parts v path = (mkChain s parts v, none) := by
  induction parts generalizing s with
  | nil => simp [insertPartsM, emptyNode, mkChain, Node.value, Node.withValue]
  | cons part rest ih =>
      have h1 : insertPartsM (Node.mk (stripColon part) ([] : List (Str × Node T)) none none)
          rest v path = (mkChain (stripColon part) rest v, none) := ih (stripColon part)
      have h2 : insertPartsM (Node.mk part ([] : List (Str × Node T)) none none)
          rest v path = (mkChain part rest v, none) := ih part
      cases hdyn : isDyn part with
      | true =>
          simp [insertPartsM, hdyn, emptyNode, Node.dynamicSegment, Node.withDyn, mkChain, h1]
      | false =>
          simp [insertPartsM, hdyn, emptyNode, Node.children, lookupA, Node.withChildren,
            setA, mkChain, h2]

theorem insert_err_eq {T : Type} (parts : List Str) (t : Node T) (v : Option T) (path : Str)
    (h : (insertPartsM t parts v path).2.isSome) : (insertPartsM t parts v path).1 = t := by
  induction parts generalizing t with
  | nil =>
      by_cases hv : t.value.isSome
      · simp [insertPartsM, hv]
      · simp [insertPartsM, hv] at h
  | cons part rest ih =>
      cases hdyn : isDyn part with
      | true =>
          cases hd : t.dynamicSegment with
          | none =>
              simp [insertPartsM, hdyn, hd, insert_fresh] at h
          | some d =>
              by_cases hne : d.path = stripColon part
              · simp only [insertPartsM, hdyn, if_true, hd, hne, ne_eq,
                  not_true_eq_false, if_false] at h ⊢
                have hde := ih d h
                rw [hde, ← hd, withDyn_self]
              · simp [insertPartsM, hdyn, hd, hne]
      | false =>
          cases hl : lookupA t.children part with
          | none =>
              simp [insertPartsM, hdyn, hl, insert_fresh] at h
          | some c =>
              simp only [insertPartsM, hdyn, Bool.false_eq_true, if_false, hl] at h ⊢
              have hce := ih c h
              rw [hce, setA_lookupA_eq _ _ _ hl, withChildren_self]

theorem insert_reaches {T : Type} (parts : List Str) (t : Node T) (v : Option T) (path : Str)
    (h : (insertPartsM t parts v path).2 = none) :
    Reaches (insertPartsM t parts v path).1 parts v := by
  induction parts generalizing t with
  | nil =>
      by_cases hv : t.value.isSome
      · simp [insertPartsM, hv] at h
      · cases t
        simp [insertPartsM, Node.value, Node.withValue, Reaches] at hv ⊢
        simp [hv]
  | cons part rest ih =>
      cases hdyn : isDyn part with
      | true =>
          cases hd : t.dynamicSegment with
          | none =>
              simp only [insertPartsM, hdyn, if_true, hd] at h ⊢
              simp only [Reaches, hdyn, cond_true]
              refine ⟨(insertPartsM (emptyNode (stripColon part)) rest v path).1, ?_, ?_, ?_⟩
              · cases t; rfl
              · rw [insert_path]; rfl
              · exact ih _ h
          | some d =>
              by_cases hne : d.path = stripColon part
              · simp only [insertPartsM, hdyn, if_true, hd, hne, ne_eq,
                  not_true_eq_false, if_false] at h ⊢
                simp only [Reaches, hdyn, cond_true]
                refine ⟨(insertPartsM d rest v path).1, ?_, ?_, ?_⟩
                · cases t; rfl
                · rw [insert_path]; exact hne
                · exact ih _ h
              · simp [insertPartsM, hdyn, hd, hne] at h
      | false =>
          cases hl : lookupA t.children part with
          | none =>
              simp only [insertPartsM, hdyn, Bool.false_eq_true, if_false, hl] at h ⊢
              simp only [Reaches, hdyn, cond_false]
              refine ⟨(insertPartsM (emptyNode part) rest v path).1, ?_, ?_⟩
              · cases t; simp [Node.withChildren, Node.children, lookupA_setA_self]
              · exact ih _ h
          | some c =>
              simp only [insertPartsM, hdyn, Bool.false_eq_true, if_false, hl] at h ⊢
              simp only [Reaches, hdyn, cond_false]
              refine ⟨(insertPartsM c rest v path).1, ?_, ?_⟩
              · cases t; simp [Node.withChildren, Node.children, lookupA_setA_self]
              · exact ih _ h

theorem reaches_none_insert_ok {T : Type} (parts : List Str) (t : Node T) (v2 : Option T)
    (path : Str) (h : Reaches t parts (none : Option T)) :
    (insertPartsM t parts v2 path).2 = none := by
  induction parts generalizing t with
  | nil =>
      simp only [Reaches] at h
      simp [insertPartsM, h]
  | cons part rest ih =>
      cases hdyn : isDyn part with
      | true =>
          simp only [Reaches, hdyn, cond_true] at h
          obtain ⟨d, hd, hname, hr⟩ := h
          simp [insertPartsM, hdyn, hd, hname, ih _ hr]
      | false =>
          simp only [Reaches, hdyn, cond_false] at h
          obtain ⟨c, hl, hr⟩ := h
          simp [insertPartsM, hdyn, hl, ih _ hr]

theorem reaches_none_insert {T : Type} (parts : List Str) (t : Node T) (v2 : Option T)
    (path : Str) (h : Reaches t parts (none : Option T)) :
    (insertPartsM t parts v2 path).2 = none ∧
      Reaches (insertPartsM t parts v2 path).1 parts v2 :=
  ⟨reaches_none_insert_ok parts t v2 path h,
   insert_reaches parts t v2 path (reaches_none_insert_ok parts t v2 path h)⟩

theorem reaches_some_insert_dup {T : Type} (parts : List Str) (t : Node T) (h : T)
    (v2 : Option T) (path : Str) (hr : Reaches t parts (some h)) :
    insertPartsM t parts v2 path = (t, some (.duplicateRoute path)) := by
  induction parts generalizing t with
  | nil =>
      simp only [Reaches] at hr
      simp [insertPartsM, hr]
  | cons part rest ih =>
      cases hdyn : isDyn part with
      | true =>
          simp only [Reaches, hdyn, cond_true] at hr
          obtain ⟨d, hd, hname, hrd⟩ := hr
          simp only [insertPartsM, hdyn, if_true, hd, hname, ne_eq, not_true_eq_false,
            if_false, ih _ hrd]
          rw [← hd, withDyn_self]
      | false =>
          simp only [Reaches, hdyn, cond_false] at hr
          obtain ⟨c, hl, hrc⟩ := hr
          simp only [insertPartsM, hdyn, Bool.false_eq_true, if_false, hl, ih _ hrc]
          rw [setA_lookupA_eq _ _ _ hl, withChildren_self]

theorem insert_path_irrel {T : Type} (parts : List Str) (t : Node T) (v : Option T)
    (pa pb : Str) :
    (insertPartsM t parts v pa).1 = (insertPartsM t parts v pb).1 ∧
      (insertPartsM t parts v pa).2.map errTag = (insertPartsM t parts v pb).2.map errTag := by
  induction parts generalizing t with
  | nil =>
      by_cases hv : t.value.isSome <;> simp [insertPartsM, hv, errTag]
  | cons part rest ih =>
      cases hdyn : isDyn part with
      | true =>
          cases hd : t.dynamicSegment with
          | none =>
              have hi := ih (emptyNode (stripColon part))
              simp only [insertPartsM, hdyn, if_true, hd]
              exact ⟨by rw [hi.1], hi.2⟩
          | some d =>
              by_cases hne : d.path = stripColon part
              · have hi := ih d
                simp only [insertPartsM, hdyn, if_true, hd, hne, ne_eq, not_true_eq_false,
                  if_false]
                exact ⟨by rw [hi.1], hi.2⟩
              · simp [insertPartsM, hdyn, hd, hne, errTag]
      | false =>
          cases hl : lookupA t.children part with
          | none =>
              have hi := ih (emptyNode part)
              simp only [insertPartsM, hdyn, Bool.false_eq_true, if_false, hl]
              exact ⟨by rw [hi.1], hi.2⟩
          | some c =>
              have hi := ih c
              simp only [insertPartsM, hdyn, Bool.false_eq_true, if_false, hl]
              exact ⟨by rw [hi.1], hi.2⟩

theorem insert_value_none {T : Type} (parts : List Str) (t : Node T) (path : Str)
    (h : t.value = none) :
    ((insertPartsM t parts (none : Option T) path).1).value = none := by
  cases parts with
  | nil => cases t; simp_all [insertPartsM, Node.value, Node.withValue]
  | cons part rest =>
      cases hdyn : isDyn part with
      | true =>
          cases hd : t.dynamicSegment with
          | none => cases t; simp_all [insertPartsM, hdyn, Node.withDyn, Node.value]
          | some d =>
              by_cases hne : d.path = stripColon part
              · cases t
                simp_all [insertPartsM, hdyn, hne, Node.dynamicSegment, Node.withDyn, Node.value]
              · cases t; simp_all [insertPartsM, hdyn, hne, Node.dynamicSegment, Node.value]
      | false =>
          cases hl : lookupA t.children part with
          | none => cases t; simp_all [insertPartsM, hdyn, Node.withChildren, Node.value]
          | some c => cases t; simp_all [insertPartsM, hdyn, Node.withChildren, Node.value]

theorem mkChain_value_none {T : Type} (parts : List Str) (s : Str) :
    (mkChain s parts (none : Option T)).value = none := by
  cases parts with
  | nil => simp [mkChain, Node.value]
  | cons part rest =>
      by_cases hdyn : isDyn part <;> simp [mkChain, hdyn, Node.value]

theorem mkChain_path {T : Type} (parts : List Str) (s : Str) (v : Option T) :
    (mkChain s parts v).path = s := by
  cases parts with
  | nil => simp [mkChain, Node.path]
  | cons part rest =>
      by_cases hdyn : isDyn part <;> simp [mkChain, hdyn, Node.path]

theorem chainFind {T : Type} (routeSegs : List Str) (reqSegs : List Str) (s : Str)
    (v : Option T) (q0 : Params) :
    (∀ ps, specMatchCaptures routeSegs reqSegs q0 = some ps →
       ∃ n, findParts (mkChain s routeSegs v) reqSegs q0 = some (n, ps) ∧ n.value = v) ∧
    (specMatchCaptures routeSegs reqSegs q0 = none →
       findParts (mkChain s routeSegs v) reqSegs q0 = none ∨
       ∃ n ps, findParts (mkChain s routeSegs v) reqSegs q0 = some (n, ps) ∧ n.value = none) := by
  induction routeSegs generalizing reqSegs s q0 with
  | nil =>
      cases reqSegs with
      | nil =>
          refine ⟨?_, ?_⟩
          · intro ps hps
            simp only [specMatchCaptures, Option.some.injEq] at hps
            exact ⟨mkChain s [] v, by simp [findParts, hps], by simp [mkChain, Node.value]⟩
          · intro hnone
            simp [specMatchCaptures] at hnone
      | cons p pss =>
          refine ⟨?_, ?_⟩
          · intro ps hps
            simp [specMatchCaptures] at hps
          · intro _
            left
            simp [findParts, mkChain, Node.children, lookupA, Node.dynamicSegment]
  | cons rs rss ih =>
      cases hdyn : isDyn rs with
      | true =>
          cases reqSegs with
          | nil =>
              refine ⟨?_, ?_⟩
              · intro ps hps
                simp [specMatchCaptures] at hps
              · intro _
                right
                exact ⟨mkChain s (rs :: rss) v, q0, by simp [findParts],
                  by simp [mkChain, hdyn, Node.value]⟩
          | cons p pss =>
              have hstep :
                  findParts (mkChain s (rs :: rss) v) (p :: pss) q0 =
                    findParts (mkChain (stripColon rs) rss v) pss
                      (assignP q0 (stripColon rs) p) := by
                simp [findParts, mkChain, hdyn, Node.children, lookupA, Node.dynamicSegment,
                  mkChain_path]
              have hm : specMatchCaptures (rs :: rss) (p :: pss) q0 =
                  specMatchCaptures rss pss (assignP q0 (stripColon rs) p) := by
                simp [specMatchCaptures, hdyn]
              have hi := ih pss (stripColon rs) (assignP q0 (stripColon rs) p)
              refine ⟨?_, ?_⟩
              · intro ps hps
                rw [hm] at hps
                rw [hstep]
                exact hi.1 ps hps
              · intro hnone
                rw [hm] at hnone
                rw [hstep]
                exact hi.2 hnone
      | false =>
          cases reqSegs with
          | nil =>
              refine ⟨?_, ?_⟩
              · intro ps hps
                simp [specMatchCaptures] at hps
              · intro _
                right
                exact ⟨mkChain s (rs :: rss) v, q0, by simp [findParts],
                  by simp [mkChain, hdyn, Node.value]⟩
          | cons p pss =>
              by_cases heq : rs = p
              · subst heq
                have hstep :
                    findParts (mkChain s (rs :: rss) v) (rs :: pss) q0 =
                      findParts (mkChain rs rss v) pss q0 := by
                  simp [findParts, mkChain, hdyn, Node.children, lookupA]
                have hm : specMatchCaptures (rs :: rss) (rs :: pss) q0 =
                    specMatchCaptures rss pss q0 := by
                  simp [specMatchCaptures, hdyn]
                have hi := ih pss rs q0
                refine ⟨?_, ?_⟩
                · intro ps hps
                  rw [hm] at hps
                  rw [hstep]
                  exact hi.1 ps hps
                · intro hnone
                  rw [hm] at hnone
                  rw [hstep]
                  exact hi.2 hnone
              · refine ⟨?_, ?_⟩
                · intro ps hps
                  simp [specMatchCaptures, hdyn, heq] at hps
                · intro _
                  left
                  simp [findParts, mkChain, hdyn, Node.children, lookupA, heq,
                    Node.dynamicSegment]

/-! ### Method lemmas -/

theorem parse_none_iff (s : Str) : parseMethod s = none ↔ s ∉ methodStrs := by
  unfold parseMethod methodStrs
  by_cases h1 : s = "GET".data
  · simp [h1]
  by_cases h2 : s = "PUT".data
  · simp [h1, h2]
  by_cases h3 : s = "POST".data
  · simp [h1, h2, h3]
  by_cases h4 : s = "DELETE".data
  · simp [h1, h2, h3, h4]
  by_cases h5 : s = "HEAD".data
  · simp [h1, h2, h3, h4, h5]
  by_cases h6 : s = "PATCH".data
  · simp [h1, h2, h3, h4, h5, h6]
  by_cases h7 : s = "OPTIONS".data
  · simp [h1, h2, h3, h4, h5, h6, h7]
  by_cases h8 : s = "TRACE".data
  · simp [h1, h2, h3, h4, h5, h6, h7, h8]
  by_cases h9 : s = "CONNECT".data
  · simp [h1, h2, h3, h4, h5, h6, h7, h8, h9]
  · simp [h1, h2, h3, h4, h5, h6, h7, h8, h9]

theorem upper_fix (s : Str) (h : s ∈ methodStrs) : upperStr s = s := by
  simp only [methodStrs, List.mem_cons, List.not_mem_nil, or_false] at h
  rcases h with rfl | rfl | rfl | rfl | rfl | rfl | rfl | rfl | rfl <;> decide

theorem routerFind_parse {T : Type} (r : Router T) (m p : Str) (M : HttpMethod)
    (hp : parseMethod (upperStr m) = some M) :
    routerFind r m p =
      match trieFind (r.tries M) p with
      | none => .ok none
      | some res =>
          match res.1.value with
          | none => .ok none
          | some h => .ok (some ⟨h, res.2⟩) := by
  unfold routerFind
  rw [hp]

theorem trieFind_nonroot {T : Type} (t : Node T) (p : Str) (h1 : p ≠ []) (h2 : p ≠ ['/']) :
    trieFind t p = (findParts t (segsOf p) []).map (fun r => (r.1, some r.2)) := by
  unfold trieFind
  rw [if_neg (by simp [h1, h2])]
  by_cases hh : p.head? = some '/'
  · simp [hh]
  · simp [hh, segs_slash]

/-! ### Claim theorems -/

/-- C1: with only `GET /users/*` registered, the code resolves `GET /users`
to not-found (no route terminates at `/users`), but — contrary to the
claim and to the repository's own catch-all documentation — it also
resolves `GET /users/a/b/c` to not-found: the `*` segment matches exactly
one request segment, as the successful single-segment lookup
`GET /users/abc` (capture recorded under the key `*`) shows. -/
theorem c1_wildcard_not_catchall :
    (routerMap (newRouter : Router Nat) "GET".data "/users/*".data 7).2 = none ∧
    routerFind rWild "GET".data "/users/a/b/c".data = .ok none ∧
    routerFind rWild "GET".data "/users".data = .ok none ∧
    routerFind rWild "GET".data "/users/abc".data =
      .ok (some ⟨7, some [("*".data, "abc".data)]⟩) := by
  decide

/-- C2 counterexample: with `GET /` registered, finding `GET /` succeeds
with the `pathParams` field absent (`none`), which is not the empty
mapping the claim asserts for the root route. -/
theorem c2_root_params_absent :
    routerFind rRootEx "GET".data "/".data = .ok (some ⟨9, none⟩) ∧
    (some ⟨9, (none : Option Params)⟩ : Option (RFind Nat)) ≠ some ⟨9, some []⟩ := by
  decide

/-- C2 (amended): for a single registered route, a find on any request path
other than the literal strings `''` and `/` returns exactly the registered
handler with the capture mapping of the route against the request (each
dynamic capture name mapped to the matched request segment, the empty
mapping when no dynamic segment is traversed), and not-found when the
route does not match; for a root route, the request paths `''` and `/`
return the handler with the `pathParams` field absent rather than empty. -/
theorem c2_single_route_lookup {T : Type} (m q : Str) (h : T)
    (hok : (routerMap (newRouter : Router T) m q h).2 = none) :
    (∀ p2, p2 ≠ [] → p2 ≠ ['/'] →
        routerFind (routerMap (newRouter : Router T) m q h).1 m p2 =
          match specMatchCaptures (segsOf q) (segsOf p2) [] with
          | some ps => .ok (some ⟨h, some ps⟩)
          | none => .ok none) ∧
    (segsOf q = [] →
        routerFind (routerMap (newRouter : Router T) m q h).1 m [] = .ok (some ⟨h, none⟩) ∧
        routerFind (routerMap (newRouter : Router T) m q h).1 m ['/'] = .ok (some ⟨h, none⟩)) := by
  cases hparse : parseMethod (upperStr m) with
  | none =>
      unfold routerMap at hok
      rw [hparse] at hok
      simp at hok
  | some M =>
      have htried : ((routerMap (newRouter : Router T) m q h).1).tries M =
          mkChain [] (segsOf q) (some h) := by
        unfold routerMap
        rw [hparse]
        show (if M = M then (trieInsert ((newRouter : Router T).tries M) q (some h)).1
          else (newRouter : Router T).tries M) = _
        rw [if_pos rfl]
        show (trieInsert (emptyNode []) q (some h)).1 = _
        unfold trieInsert
        rw [insert_fresh, segs_normIns]
      constructor
      · intro p2 hp1 hp2
        rw [routerFind_parse _ _ _ M hparse, htried, trieFind_nonroot _ p2 hp1 hp2]
        cases hsm : specMatchCaptures (segsOf q) (segsOf p2) ([] : Params) with
        | some ps =>
            obtain ⟨n, hfind, hval⟩ :=
              (chainFind (segsOf q) (segsOf p2) ([] : Str) (some h) ([] : Params)).1 ps hsm
            rw [hfind]
            simp [hval]
        | none =>
            rcases (chainFind (segsOf q) (segsOf p2) ([] : Str) (some h) ([] : Params)).2 hsm
              with hnone | ⟨n, ps, hfind, hval⟩
            · rw [hnone]
              simp
            · rw [hfind]
              simp [hval]
      · intro hq
        rw [hq] at htried
        constructor <;>
          · rw [routerFind_parse _ _ _ M hparse, htried]
            simp [trieFind, mkChain, Node.value]

/-- C2 witness: registering `GET /posts/:post_id` and finding `GET
/posts/42` yields the registered handler with `pathParams = {post_id:
"42"}`. -/
theorem c2_single_route_lookup_witness :
    routerFind (routerMap (newRouter : Router Nat) "GET".data "/posts/:post_id".data 5).1
      "GET".data "/posts/42".data = .ok (some ⟨5, some [("post_id".data, "42".data)]⟩) := by
  have hh := (c2_single_route_lookup "GET".data "/posts/:post_id".data 5 (by decide)).1
    "/posts/42".data (by decide) (by decide)
  rw [hh]
  decide

/-- C3: the per-segment descent rule of `find` — the literal child keyed by
the segment always wins, otherwise the dynamic child, otherwise immediate
not-found with no backtracking; concretely, with `GET /posts/:post_id` and
`GET /posts/top` the literal handler wins on `/posts/top`, and with
`GET /posts/:id/x` plus `GET /posts/top` the lookup of `/posts/top/x` dies
inside the literal branch even though the dynamic branch would have
matched. -/
theorem c3_descent_rule {T : Type} (t : Node T) (part : Str) (rest : List Str) (q : Params) :
    (∀ c, lookupA t.children part = some c →
        findParts t (part :: rest) q = findParts c rest q) ∧
    (∀ d, lookupA t.children part = none → t.dynamicSegment = some d →
        findParts t (part :: rest) q = findParts d rest (assignP q d.path part)) ∧
    (lookupA t.children part = none → t.dynamicSegment = none →
        findParts t (part :: rest) q = none) ∧
    routerFind rPrec "GET".data "/posts/top".data = .ok (some ⟨2, some []⟩) ∧
    routerFind rPrec "GET".data "/posts/abc".data =
      .ok (some ⟨1, some [("post_id".data, "abc".data)]⟩) ∧
    routerFind rNoBack "GET".data "/posts/top/x".data = .ok none ∧
    routerFind rNoBack "GET".data "/posts/zzz/x".data =
      .ok (some ⟨1, some [("id".data, "zzz".data)]⟩) := by
  refine ⟨?_, ?_, ?_, by decide, by decide, by decide, by decide⟩
  · intro c hc
    simp [findParts, hc]
  · intro d hc hd
    simp [findParts, hc, hd]
  · intro hc hd
    simp [findParts, hc, hd]

/-- C3 witness: at a node with no matching literal child and no dynamic
child, the lookup fails immediately. -/
theorem c3_descent_rule_witness :
    findParts (emptyNode ([] : Str) : Node Nat) ("a".data :: []) [] = none :=
  (c3_descent_rule (emptyNode ([] : Str) : Node Nat) "a".data [] []).2.2.1 rfl rfl

/-- C4: inserting a dynamic segment at a node that already has a dynamic
child fails with ConflictingDynamicSegment (carrying the offending path and
the existing capture name) when the capture names differ, and descends into
the existing dynamic child without an error at that step when they match;
concretely, `GET /posts/:id` then `GET /posts/:post_id` raises
ConflictingDynamicSegment for path `/posts/:post_id` with existing name
`id`. -/
theorem c4_conflicting_dynamic {T : Type} (t : Node T) (part : Str) (rest : List Str)
    (v : Option T) (path : Str) (d : Node T)
    (hdyn : isDyn part = true) (hd : t.dynamicSegment = some d) :
    (d.path ≠ stripColon part →
        insertPartsM t (part :: rest) v path =
          (t, some (.conflictingDynamicSegment path d.path))) ∧
    (d.path = stripColon part →
        insertPartsM t (part :: rest) v path =
          (t.withDyn (some (insertPartsM d rest v path).1), (insertPartsM d rest v path).2)) ∧
    (routerMap (mapOk (newRouter : Router Nat) "GET".data "/posts/:id".data 1) "GET".data
        "/posts/:post_id".data 2).2 =
      some (.conflictingDynamicSegment "/posts/:post_id".data "id".data) := by
  refine ⟨?_, ?_, by decide⟩
  · intro hne
    simp [insertPartsM, hdyn, hd, hne]
  · intro heq
    simp [insertPartsM, hdyn, hd, heq]

/-- C4 witness: inserting `:post_id` at a node whose dynamic child is named
`id` returns the node unchanged with a ConflictingDynamicSegment error. -/
theorem c4_conflicting_dynamic_witness :
    insertPartsM (Node.mk ([] : Str) [] (some (emptyNode "id".data)) (none : Option Nat))
        (":post_id".data :: []) (some 2) "/posts/:post_id".data =
      (Node.mk ([] : Str) [] (some (emptyNode "id".data)) (none : Option Nat),
        some (.conflictingDynamicSegment "/posts/:post_id".data "id".data)) :=
  (c4_conflicting_dynamic
    (Node.mk ([] : Str) [] (some (emptyNode "id".data)) (none : Option Nat))
    ":post_id".data [] (some 2) "/posts/:post_id".data (emptyNode "id".data)
    (by decide) rfl).1 (by decide)

theorem routerMap_parse {T : Type} (r : Router T) (m p : Str) (h : T) (M : HttpMethod)
    (hp : parseMethod (upperStr m) = some M) :
    routerMap r m p h =
      (⟨fun M2 => if M2 = M then (trieInsert (r.tries M) p (some h)).1 else r.tries M2⟩,
        (trieInsert (r.tries M) p (some h)).2) := by
  unfold routerMap
  rw [hp]

/-- C5: a second insertion terminating at the identical path for the
identical method fails with DuplicateRoute naming the (slash-normalized)
path; an insertion whose walk reaches a node holding no value binds the
value there without error; concretely, inserting `GET /a/b` twice raises
DuplicateRoute for `/a/b`. -/
theorem c5_duplicate_route {T : Type} (r : Router T) (m p : Str) (h h2 : T) :
    ((routerMap r m p h).2 = none →
        (routerMap (routerMap r m p h).1 m p h2).2 =
          some (.duplicateRoute (normIns p))) ∧
    (∀ (t : Node T) (parts : List Str) (path : Str),
        Reaches t parts (none : Option T) →
        (insertPartsM t parts (some h2) path).2 = none ∧
        Reaches (insertPartsM t parts (some h2) path).1 parts (some h2)) ∧
    (routerMap (mapOk (newRouter : Router Nat) "GET".data "/a/b".data 1) "GET".data
        "/a/b".data 2).2 = some (.duplicateRoute "/a/b".data) := by
  refine ⟨?_, ?_, by decide⟩
  · intro hok
    cases hparse : parseMethod (upperStr m) with
    | none =>
        unfold routerMap at hok
        rw [hparse] at hok
        simp at hok
    | some M =>
        have hin : (trieInsert (r.tries M) p (some h)).2 = none := by
          rw [routerMap_parse r m p h M hparse] at hok
          exact hok
        have htried : ((routerMap r m p h).1).tries M =
            (trieInsert (r.tries M) p (some h)).1 := by
          rw [routerMap_parse r m p h M hparse]
          simp
        have hreach : Reaches ((routerMap r m p h).1.tries M) (segsOf (normIns p)) (some h) := by
          rw [htried]
          exact insert_reaches _ _ _ _ hin
        rw [routerMap_parse ((routerMap r m p h).1) m p h2 M hparse]
        show (trieInsert ((routerMap r m p h).1.tries M) p (some h2)).2 = _
        unfold trieInsert
        rw [reaches_some_insert_dup (segsOf (normIns p)) _ h (some h2) (normIns p) hreach]
  · intro t parts path hr
    exact reaches_none_insert parts t (some h2) path hr

/-- C5 witness: the duplicate registration of `GET /a/b` concretely fails
with DuplicateRoute for `/a/b`. -/
theorem c5_duplicate_route_witness :
    (routerMap (routerMap (newRouter : Router Nat) "GET".data "/a/b".data 1).1 "GET".data
        "/a/b".data 2).2 = some (.duplicateRoute "/a/b".data) :=
  (c5_duplicate_route (newRouter : Router Nat) "GET".data "/a/b".data 1 2).1 (by decide)

theorem insert_err_tag {T : Type} (parts : List Str) (t : Node T) (v : Option T) (path : Str)
    (e : Err) (h : (insertPartsM t parts v path).2 = some e) :
    errTag e ≠ ErrTag.unsupported := by
  induction parts generalizing t with
  | nil =>
      by_cases hv : t.value.isSome
      · simp only [insertPartsM, hv, if_true, Option.some.injEq] at h
        rw [← h]
        simp [errTag]
      · simp [insertPartsM, hv] at h
  | cons part rest ih =>
      cases hdyn : isDyn part with
      | true =>
          cases hd : t.dynamicSegment with
          | none =>
              simp only [insertPartsM, hdyn, if_true, hd] at h
              exact ih _ h
          | some d =>
              by_cases hne : d.path = stripColon part
              · simp only [insertPartsM, hdyn, if_true, hd, hne, ne_eq, not_true_eq_false,
                  if_false] at h
                exact ih _ h
              · simp only [insertPartsM, hdyn, if_true, hd, hne, ne_eq, not_false_eq_true,
                  if_true, Option.some.injEq] at h
                rw [← h]
                simp [errTag]
      | false =>
          cases hl : lookupA t.children part with
          | none =>
              simp only [insertPartsM, hdyn, Bool.false_eq_true, if_false, hl] at h
              exact ih _ h
          | some c =>
              simp only [insertPartsM, hdyn, Bool.false_eq_true, if_false, hl] at h
              exact ih _ h

/-- C6: `Router.map` and `Router.find` normalize the method to uppercase
(so `get` behaves exactly like `GET` against every router state, and any
method whose uppercasing is enumerated behaves like its uppercased form),
and both fail with UnsupportedMethod precisely when the uppercased method
is not one of the nine enumerated methods; concretely `find('PURGE',
'/anything')` fails with UnsupportedMethod. -/
theorem c6_method_normalization {T : Type} (r : Router T) (p : Str) (hdl : T) :
    routerFind r "get".data p = routerFind r "GET".data p ∧
    routerMap r "get".data p hdl = routerMap r "GET".data p hdl ∧
    (∀ m, upperStr m ∈ methodStrs → routerFind r m p = routerFind r (upperStr m) p) ∧
    (∀ m, upperStr m ∈ methodStrs → routerMap r m p hdl = routerMap r (upperStr m) p hdl) ∧
    (∀ m, routerFind r m p = .error (.unsupportedMethod m) ↔ upperStr m ∉ methodStrs) ∧
    (∀ m, (routerMap r m p hdl).2 = some (.unsupportedMethod m) ↔ upperStr m ∉ methodStrs) ∧
    routerFind (newRouter : Router T) "PURGE".data "/anything".data =
      .error (.unsupportedMethod "PURGE".data) := by
  refine ⟨?_, ?_, ?_, ?_, ?_, ?_, ?_⟩
  · rw [routerFind_parse r _ p .GET (by decide), routerFind_parse r _ p .GET (by decide)]
  · rw [routerMap_parse r _ p hdl .GET (by decide), routerMap_parse r _ p hdl .GET (by decide)]
  · intro m hm
    cases hp : parseMethod (upperStr m) with
    | none =>
        rw [parse_none_iff] at hp
        exact absurd hm hp
    | some M =>
        have hp2 : parseMethod (upperStr (upperStr m)) = some M := by
          rw [upper_fix _ hm]
          exact hp
        rw [routerFind_parse r _ p M hp, routerFind_parse r _ p M hp2]
  · intro m hm
    cases hp : parseMethod (upperStr m) with
    | none =>
        rw [parse_none_iff] at hp
        exact absurd hm hp
    | some M =>
        have hp2 : parseMethod (upperStr (upperStr m)) = some M := by
          rw [upper_fix _ hm]
          exact hp
        rw [routerMap_parse r _ p hdl M hp, routerMap_parse r _ p hdl M hp2]
  · intro m
    constructor
    · intro he
      cases hp : parseMethod (upperStr m) with
      | none => exact (parse_none_iff _).mp hp
      | some M =>
          rw [routerFind_parse r _ p M hp] at he
          cases htf : trieFind (r.tries M) p with
          | none => simp [htf] at he
          | some res =>
              cases hv : res.1.value with
              | none => simp [htf, hv] at he
              | some hh => simp [htf, hv] at he
    · intro hnot
      have hp : parseMethod (upperStr m) = none := (parse_none_iff _).mpr hnot
      unfold routerFind
      rw [hp]
  · intro m
    constructor
    · intro he
      cases hp : parseMethod (upperStr m) with
      | none => exact (parse_none_iff _).mp hp
      | some M =>
          rw [routerMap_parse r _ p hdl M hp] at he
          exact absurd rfl (insert_err_tag _ _ _ _ _ he)
    · intro hnot
      have hp : parseMethod (upperStr m) = none := (parse_none_iff _).mpr hnot
      unfold routerMap
      rw [hp]
  · unfold routerFind
    rw [show parseMethod (upperStr "PURGE".data) = none from by decide]

/-- C6 witness: `find('gEt', p)` behaves like `find('GET', p)` on a
concrete router, and `map('PURGE', ...)` concretely reports
UnsupportedMethod. -/
theorem c6_method_normalization_witness :
    routerFind rPrec "gEt".data "/posts/top".data =
      routerFind rPrec (upperStr "gEt".data) "/posts/top".data ∧
    (routerMap (newRouter : Router Nat) "PURGE".data "/x".data 1).2 =
      some (.unsupportedMethod "PURGE".data) :=
  ⟨(c6_method_normalization rPrec "/posts/top".data 1).2.2.1 "gEt".data (by decide),
   ((c6_method_normalization (newRouter : Router Nat) "/x".data 1).2.2.2.2.2.1
      "PURGE".data).mpr (by decide)⟩

/-- C7: `Router.find` returns the not-found result (`Except.ok none`)
exactly when the method parses and either the trie walk reaches no node or
the reached node holds no value; the only error `find` ever raises is
UnsupportedMethod, raised exactly when the uppercased method does not
parse, so not-found and the method error are never conflated. -/
theorem c7_notfound_vs_unsupported {T : Type} (r : Router T) (m p : Str) :
    (routerFind r m p = .ok none ↔
        ∃ M, parseMethod (upperStr m) = some M ∧
          (trieFind (r.tries M) p = none ∨
           ∃ res, trieFind (r.tries M) p = some res ∧ res.1.value = none)) ∧
    (∀ e, routerFind r m p = .error e → e = .unsupportedMethod m) ∧
    (routerFind r m p = .error (.unsupportedMethod m) ↔ parseMethod (upperStr m) = none) := by
  cases hp : parseMethod (upperStr m) with
  | none =>
      have hf : routerFind r m p = .error (.unsupportedMethod m) := by
        unfold routerFind
        rw [hp]
      refine ⟨?_, ?_, ?_⟩
      · rw [hf]
        simp
      · intro e he
        rw [hf] at he
        exact (Except.error.inj he).symm
      · rw [hf]
        simp
  | some M =>
      have hf := routerFind_parse r m p M hp
      refine ⟨?_, ?_, ?_⟩
      · rw [hf]
        cases htf : trieFind (r.tries M) p with
        | none =>
            simp only [htf]
            exact ⟨fun _ => ⟨M, rfl, Or.inl htf⟩, fun _ => trivial⟩
        | some res =>
            cases hv : res.1.value with
            | none =>
                simp only [htf, hv]
                exact ⟨fun _ => ⟨M, rfl, Or.inr ⟨res, htf, hv⟩⟩, fun _ => trivial⟩
            | some hh =>
                simp only [htf, hv]
                constructor
                · intro hc
                  exact absurd hc (by simp)
                · rintro ⟨M2, hp2, hcase⟩
                  exfalso
                  cases Option.some.inj hp2
                  rcases hcase with hnone | ⟨res2, hres2, hv2⟩
                  · rw [htf] at hnone
                    exact Option.noConfusion hnone
                  · rw [htf] at hres2
                    cases Option.some.inj hres2
                    rw [hv] at hv2
                    exact Option.noConfusion hv2
      · intro e he
        rw [hf] at he
        cases htf : trieFind (r.tries M) p with
        | none => simp [htf] at he
        | some res =>
            cases hv : res.1.value with
            | none => simp [htf, hv] at he
            | some hh => simp [htf, hv] at he
      · constructor
        · intro he
          exfalso
          rw [hf] at he
          cases htf : trieFind (r.tries M) p with
          | none => simp [htf] at he
          | some res =>
              cases hv : res.1.value with
              | none => simp [htf, hv] at he
              | some hh => simp [htf, hv] at he
        · intro hnone
          exact Option.noConfusion hnone

/-- C7 witness: an unregistered path under a supported method is not-found,
and an unsupported method concretely yields the UnsupportedMethod error,
not the not-found result. -/
theorem c7_notfound_vs_unsupported_witness :
    routerFind rPrec "GET".data "/nothing/here".data = .ok none ∧
    routerFind rPrec "PURGE".data "/posts/top".data = .error (.unsupportedMethod "PURGE".data) :=
  ⟨by decide,
   ((c7_notfound_vs_unsupported rPrec "PURGE".data "/posts/top".data).2.2).mpr (by decide)⟩

/-- C8 counterexample: with `GET /` registered, the request paths `/` and
`//` — equal after discarding empty segments — do not behave identically:
`/` takes the root special case and returns an absent `pathParams`, while
`//` returns the empty mapping. -/
theorem c8_root_double_slash_differs :
    routerFind rSlash "GET".data "/".data ≠ routerFind rSlash "GET".data "//".data := by
  decide

/-- C8 (amended): a leading slash never changes the segment list; two paths
with the same segment list (in particular `/a//b/` and `/a/b`, or
`posts/42` and `/posts/42`) produce identical tries and the same kind of
registration outcome when inserted, and identical find results for every
router whenever neither path is one of the literal strings `''` and `/`
that take the root special case (those return an absent `pathParams` field
where other slash-only spellings return an empty mapping). -/
theorem c8_slash_normalization {T : Type} (t : Node T) (v : Option T) (r : Router T)
    (m p1 p2 : Str) :
    segsOf ('/' :: p1) = segsOf p1 ∧
    (segsOf p1 = segsOf p2 →
        (trieInsert t p1 v).1 = (trieInsert t p2 v).1 ∧
        (trieInsert t p1 v).2.map errTag = (trieInsert t p2 v).2.map errTag) ∧
    (segsOf p1 = segsOf p2 → p1 ≠ [] → p1 ≠ ['/'] → p2 ≠ [] → p2 ≠ ['/'] →
        routerFind r m p1 = routerFind r m p2) := by
  refine ⟨segs_slash p1, ?_, ?_⟩
  · intro hsegs
    unfold trieInsert
    rw [segs_normIns, segs_normIns, hsegs]
    exact insert_path_irrel (segsOf p2) t v (normIns p1) (normIns p2)
  · intro hsegs h1a h1b h2a h2b
    cases hp : parseMethod (upperStr m) with
    | none =>
        unfold routerFind
        rw [hp]
    | some M =>
        rw [routerFind_parse r _ _ M hp, routerFind_parse r _ _ M hp,
          trieFind_nonroot _ p1 h1a h1b, trieFind_nonroot _ p2 h2a h2b, hsegs]

/-- C8 witness: a missing leading slash and a doubled slash do not change
lookup results on a concrete router, and `/a//b/` inserts like `/a/b`. -/
theorem c8_slash_normalization_witness :
    routerFind rPrec "GET".data "posts/42".data =
      routerFind rPrec "GET".data "/posts/42".data ∧
    (trieInsert (emptyNode ([] : Str) : Node Nat) "/a//b/".data (some 1)).1 =
      (trieInsert (emptyNode ([] : Str) : Node Nat) "/a/b".data (some 1)).1 :=
  ⟨(c8_slash_normalization (emptyNode ([] : Str) : Node Nat) (some 1) rPrec "GET".data
      "posts/42".data "/posts/42".data).2.2 (by decide) (by decide) (by decide) (by decide)
      (by decide),
   ((c8_slash_normalization (emptyNode ([] : Str) : Node Nat) (some 1) rPrec "GET".data
      "/a//b/".data "/a/b".data).2.1 (by decide)).1⟩

/-- C9: when an insertion fails (ConflictingDynamicSegment or
DuplicateRoute), the trie is returned exactly as it was — the throws in
`RouteTrie.insert` happen before any node is attached — so every
subsequent lookup, of related and unrelated routes alike, is unchanged. -/
theorem c9_failed_insert_unchanged {T : Type} (t : Node T) (p : Str) (v : Option T)
    (herr : (trieInsert t p v).2.isSome) :
    (trieInsert t p v).1 = t ∧
    ∀ q, trieFind (trieInsert t p v).1 q = trieFind t q := by
  have h1 : (trieInsert t p v).1 = t := insert_err_eq _ _ _ _ herr
  exact ⟨h1, fun q => by rw [h1]⟩

/-- C9 witness: after `/a/:x` is registered, the conflicting insertion of
`/a/:y` fails and the lookup of `/a/7` still resolves exactly as before. -/
theorem c9_failed_insert_unchanged_witness :
    (trieInsert tConflict "/a/:y".data (some 2)).2.isSome = true ∧
    trieFind (trieInsert tConflict "/a/:y".data (some 2)).1 "/a/7".data =
      trieFind tConflict "/a/7".data :=
  ⟨by decide,
   (c9_failed_insert_unchanged tConflict "/a/:y".data (some 2) (by decide)).2 "/a/7".data⟩

theorem chain_reaches {T : Type} (parts : List Str) (s : Str) (v : Option T) :
    Reaches (mkChain s parts v) parts v := by
  induction parts generalizing s with
  | nil => simp [mkChain, Reaches, Node.value]
  | cons part rest ih =>
      cases hdyn : isDyn part with
      | true =>
          simp only [mkChain, hdyn, if_true, Reaches, cond_true]
          exact ⟨mkChain (stripColon part) rest v, rfl, mkChain_path _ _ _, ih _⟩
      | false =>
          simp only [mkChain, hdyn, Bool.false_eq_true, if_false, Reaches, cond_false]
          exact ⟨mkChain part rest v, by simp [Node.children, lookupA], ih _⟩

/-- C10: route presence is decided by the stored value, not by whether an
insertion terminated at the node: inserting any path with the value
argument omitted succeeds and builds the walk to a valueless node, a
second insertion of the same path with a value present succeeds without
DuplicateRoute, and `Router.find` on that path after only the value-less
insert is not-found. -/
theorem c10_valueless_insert {T : Type} (p : Str) (h : T) :
    (trieInsert (emptyNode ([] : Str) : Node T) p none).2 = none ∧
    Reaches (trieInsert (emptyNode ([] : Str) : Node T) p none).1 (segsOf p)
      (none : Option T) ∧
    (trieInsert (trieInsert (emptyNode ([] : Str) : Node T) p none).1 p (some h)).2 = none ∧
    routerFind
      (⟨fun M2 => if M2 = HttpMethod.GET then (trieInsert (emptyNode ([] : Str) : Node T) p none).1
          else emptyNode []⟩ : Router T) "GET".data p = .ok none := by
  refine ⟨?_, ?_, ?_, ?_⟩
  · unfold trieInsert
    rw [insert_fresh]
  · unfold trieInsert
    rw [insert_fresh, segs_normIns]
    exact chain_reaches _ _ _
  · unfold trieInsert
    rw [insert_fresh, segs_normIns]
    exact reaches_none_insert_ok (segsOf p) _ (some h) (normIns p) (chain_reaches _ _ _)
  · have hparse : parseMethod (upperStr "GET".data) = some HttpMethod.GET := by decide
    rw [routerFind_parse _ _ _ HttpMethod.GET hparse]
    have htr : (⟨fun M2 => if M2 = HttpMethod.GET then
        (trieInsert (emptyNode ([] : Str) : Node T) p none).1 else emptyNode []⟩ :
          Router T).tries HttpMethod.GET =
        mkChain [] (segsOf p) none := by
      show (if HttpMethod.GET = HttpMethod.GET then
        (trieInsert (emptyNode ([] : Str) : Node T) p none).1 else emptyNode []) = _
      rw [if_pos rfl]
      unfold trieInsert
      rw [insert_fresh, segs_normIns]
    rw [htr]
    by_cases hroot : p = [] ∨ p = ['/']
    · unfold trieFind
      rw [if_pos hroot]
      simp [mkChain_value_none]
    · push_neg at hroot
      rw [trieFind_nonroot _ p hroot.1 hroot.2]
      cases hsm : specMatchCaptures (segsOf p) (segsOf p) ([] : Params) with
      | some ps =>
          obtain ⟨n, hfind, hval⟩ :=
            (chainFind (segsOf p) (segsOf p) ([] : Str) (none : Option T) ([] : Params)).1 ps hsm
          rw [hfind]
          simp [hval]
      | none =>
          rcases (chainFind (segsOf p) (segsOf p) ([] : Str) (none : Option T)
              ([] : Params)).2 hsm with hnone | ⟨n, ps, hfind, hval⟩
          · rw [hnone]
            simp
          · rw [hfind]
            simp [hval]
